import Mathlib

/-!
Verification development for the operator-console lead engine (`src/main.py`).

The Python source is shallowly embedded: each Lean definition mirrors one
Python function or one global-state fragment of `main.py`.  Strings are
modelled as `String` / `List Char`; Python `re` operations on the specific
anchored patterns of the source are translated into explicit character-list
scans (the translation of each pattern is justified in a comment next to the
definition).  Python's unlimited signed integers become `Int`, timestamps
become `Int` (minutes), and dictionaries with `setdefault`-style empty
defaults become total functions returning the default.

Modelling conventions, used throughout:
* Python `None` becomes `Option.none`; Python truthiness of an optional
  string (`None` and `""` are falsy) is `pyTruthy`.
* `str.strip()` / `\s` are modelled over the ASCII whitespace characters
  (space, tab, newline, carriage return, vertical tab, form feed), which are
  the only whitespace characters the code's inputs use.
* Python's `\d` is modelled as the ASCII digits.
-/

namespace Foches

/-- ASCII whitespace, the subset of Python `str.isspace` relevant here. -/
def pyIsSpace (c : Char) : Bool :=
  c = ' ' || c = '\t' || c = '\n' || c = '\r' || c = '\x0b' || c = '\x0c'

/-- Python `str.strip()` on a character list. -/
def pyStrip (l : List Char) : List Char :=
  ((l.dropWhile pyIsSpace).reverse.dropWhile pyIsSpace).reverse

/-- Python truthiness of an optional string: `None` and `""` are falsy. -/
def pyTruthy : Option String → Bool
  | none => false
  | some s => s ≠ ""

/-- `digits.startswith("0")` on a character list. -/
def headIs0 : List Char → Bool
  | c :: _ => c = '0'
  | [] => false

/-- `re.sub(r"^\s*\+33\s*", "0", s)` applied to an already-stripped string:
the leading `\s*` is vacuous, so the sub fires iff the list starts with
`+33`, replacing the prefix and the whitespace after it by `0`. -/
def subPlus33 (l : List Char) : List Char :=
  match l with
  | '+' :: '3' :: '3' :: rest => '0' :: rest.dropWhile pyIsSpace
  | _ => l

/-- `re.sub(r"^\s*0033\s*", "0", s)`, same reading as `subPlus33`. -/
def sub0033 (l : List Char) : List Char :=
  match l with
  | '0' :: '0' :: '3' :: '3' :: rest => '0' :: rest.dropWhile pyIsSpace
  | _ => l

/-- The digit string `normalize_phone` works on: strip, rewrite the `+33`
then the `0033` prefix, then drop every non-digit (`re.sub(r"\D", "", s)`). -/
def pipelineDigits (s : String) : List Char :=
  ((sub0033 (subPlus33 (pyStrip s.toList)))).filter Char.isDigit

/-- Core of `normalize_phone` (src/main.py:145-157) on a non-empty raw
string.  Mirrors the source line by line, including the truncation of a
`0…`-digit string of length ≥ 10 to its first 10 digits. -/
def normalizePhoneL (s : String) : Option (List Char) :=
  let digits := pipelineDigits s
  if headIs0 digits ∧ 10 ≤ digits.length then
    let d10 := digits.take 10
    if d10.length = 10 then some d10 else none
  else
    let d2 := if digits.length = 9 ∧ ¬ headIs0 digits then '0' :: digits else digits
    if d2.length = 10 ∧ headIs0 d2 then some d2 else none

/-- `normalize_phone(s)` (src/main.py:145-157).  `if not s: return None`
catches both `None` and the empty string. -/
def normalize_phone : Option String → Option String
  | none => none
  | some s => if s = "" then none else (normalizePhoneL s).map fun l => ⟨l⟩

/-- Modelled from the spec's words for §4.1 `normalizePhone` (the claim's
reading): strip the prefixes, drop non-digits, prepend `0` to a 9-digit
string not starting with `0`, and succeed only if the result is exactly 10
digits starting with `0` — with no truncation rule. -/
def normalize_phone_claimed : Option String → Option String
  | none => none
  | some s =>
    if s = "" then none
    else
      let digits := pipelineDigits s
      let d2 := if digits.length = 9 ∧ ¬ headIs0 digits then '0' :: digits else digits
      if d2.length = 10 ∧ headIs0 d2 then some ⟨d2⟩ else none

end Foches

namespace Foches

/-- Every character of the pipeline digit string is an ASCII digit. -/
theorem pipelineDigits_all_digit (s : String) :
    (pipelineDigits s).all Char.isDigit = true := by
  simp only [pipelineDigits, List.all_eq_true]
  intro a ha
  exact (List.mem_filter.mp ha).2

/-- `headIs0` is `head? = '0'`. -/
theorem headIs0_iff (l : List Char) : headIs0 l = true ↔ l.head? = some '0' := by
  cases l <;> simp [headIs0]

end Foches

/-- C6 (counterexample): the claim says any input whose digits do not reduce
to exactly 10 digits starting with `0` yields null, but `normalize_phone`
truncates an 11-digit string starting with `0` to its first 10 digits and
returns it, where the claimed behaviour (`normalize_phone_claimed`) returns
null. -/
theorem c6_normalize_phone_counterexample :
    Foches.normalize_phone (some "01234567890") = some "0123456789" ∧
    Foches.normalize_phone_claimed (some "01234567890") = none := by
  exact ⟨rfl, rfl⟩

/-- C6 (amended): `normalize_phone` strips the `+33`/`0033` prefixes to a
leading zero, removes non-digit characters, prepends a zero to a 9-digit
string not starting with `0`, and returns only 10-digit strings starting
with `0` — with the addition that a digit string starting with `0` of
length ≥ 10 is truncated to its first 10 digits and returned (rather than
rejected when longer than 10).  Outside that truncation case the claimed
description is exact.  The two example equalities of the claim hold. -/
theorem c6_normalize_phone_amended :
    (Foches.normalize_phone (some "+33612345678") = some "0612345678")
    ∧ (Foches.normalize_phone (some "0612345678") = some "0612345678")
    ∧ (∀ s r, Foches.normalize_phone (some s) = some r →
        r.length = 10 ∧ r.toList.head? = some '0' ∧ r.toList.all Char.isDigit)
    ∧ (∀ s, Foches.headIs0 (Foches.pipelineDigits s) = true →
        10 ≤ (Foches.pipelineDigits s).length →
        Foches.normalize_phone (some s)
          = some (String.mk ((Foches.pipelineDigits s).take 10)))
    ∧ (∀ s, ¬(Foches.headIs0 (Foches.pipelineDigits s) = true
              ∧ 10 < (Foches.pipelineDigits s).length) →
        Foches.normalize_phone (some s) = Foches.normalize_phone_claimed (some s)) := by
  refine ⟨rfl, rfl, ?_, ?_, ?_⟩
  · intro s r h
    by_cases hs : s = ""
    · subst hs; simp [Foches.normalize_phone] at h
    · simp only [Foches.normalize_phone, if_neg hs, Option.map_eq_some'] at h
      obtain ⟨l, hl, rfl⟩ := h
      have hall := Foches.pipelineDigits_all_digit s
      simp only [Foches.normalizePhoneL] at hl
      by_cases hA : Foches.headIs0 (Foches.pipelineDigits s) = true
          ∧ 10 ≤ (Foches.pipelineDigits s).length
      · rw [if_pos hA] at hl
        by_cases hB : ((Foches.pipelineDigits s).take 10).length = 10
        · rw [if_pos hB] at hl
          cases hl
          refine ⟨hB, ?_, ?_⟩
          · show ((Foches.pipelineDigits s).take 10).head? = some '0'
            rw [List.head?_take, if_neg (by omega)]
            exact (Foches.headIs0_iff _).mp hA.1
          · simp only [List.all_eq_true] at hall ⊢
            intro a ha
            exact hall a (List.mem_of_mem_take ha)
        · exact absurd (by simp only [List.length_take]; omega) hB
      · rw [if_neg hA] at hl
        by_cases h9 : (Foches.pipelineDigits s).length = 9
            ∧ ¬Foches.headIs0 (Foches.pipelineDigits s) = true
        · rw [if_pos h9] at hl
          by_cases hC : ('0' :: Foches.pipelineDigits s).length = 10
              ∧ Foches.headIs0 ('0' :: Foches.pipelineDigits s) = true
          · rw [if_pos hC] at hl
            cases hl
            refine ⟨hC.1, rfl, ?_⟩
            show ('0' :: Foches.pipelineDigits s).all Char.isDigit = true
            simp only [List.all_cons, hall, Bool.and_true]
            decide
          · exact absurd hl (by rw [if_neg hC]; simp)
        · rw [if_neg h9] at hl
          by_cases hC : (Foches.pipelineDigits s).length = 10
              ∧ Foches.headIs0 (Foches.pipelineDigits s) = true
          · rw [if_pos hC] at hl
            cases hl
            exact ⟨hC.1, (Foches.headIs0_iff _).mp hC.2, hall⟩
          · exact absurd hl (by rw [if_neg hC]; simp)
  · intro s h0 hlen
    have hs : s ≠ "" := by
      intro hs
      rw [hs] at h0
      exact absurd h0 (by decide)
    simp only [Foches.normalize_phone, if_neg hs, Foches.normalizePhoneL]
    rw [if_pos ⟨h0, hlen⟩,
      if_pos (show ((Foches.pipelineDigits s).take 10).length = 10 by
        simp only [List.length_take]; omega)]
    rfl
  · intro s hnot
    by_cases hs : s = ""
    · subst hs; rfl
    · simp only [Foches.normalize_phone, Foches.normalize_phone_claimed, if_neg hs,
        Foches.normalizePhoneL]
      by_cases h0 : Foches.headIs0 (Foches.pipelineDigits s) = true
      · by_cases hlen : 10 ≤ (Foches.pipelineDigits s).length
        · have hlen10 : (Foches.pipelineDigits s).length = 10 := by
            rcases Nat.lt_or_ge 10 (Foches.pipelineDigits s).length with h | h
            · exact absurd ⟨h0, h⟩ hnot
            · omega
          rw [if_pos ⟨h0, hlen⟩,
            if_pos (show ((Foches.pipelineDigits s).take 10).length = 10 by
              simp only [List.length_take]; omega),
            List.take_of_length_le (le_of_eq hlen10)]
          have h9 : ¬((Foches.pipelineDigits s).length = 9
              ∧ ¬Foches.headIs0 (Foches.pipelineDigits s) = true) := by
            rintro ⟨h9, -⟩; omega
          rw [if_neg h9, if_pos ⟨hlen10, h0⟩]
          rfl
        · rw [if_neg (fun hc => hlen hc.2)]
          have h9 : ¬((Foches.pipelineDigits s).length = 9
              ∧ ¬Foches.headIs0 (Foches.pipelineDigits s) = true) :=
            fun hc => hc.2 h0
          rw [if_neg h9]
          split <;> rfl
      · rw [if_neg (fun hc => h0 hc.1)]
        by_cases h9 : (Foches.pipelineDigits s).length = 9
            ∧ ¬Foches.headIs0 (Foches.pipelineDigits s) = true
        · rw [if_pos h9]
          split <;> rfl
        · rw [if_neg h9]
          split <;> rfl

namespace Foches

/-- The line-break characters of Python `str.splitlines`. -/
def isLineBreak (c : Char) : Bool :=
  c = '\n' || c = '\r' || c = '\x0b' || c = '\x0c' ||
  c = '\x1c' || c = '\x1d' || c = '\x1e' || c = '\x85' ||
  c = ' ' || c = ' '

/-- Python `str.splitlines`: split at every line break (`\r\n` counts as a
single break); a trailing break does not produce a final empty line. -/
def pySplitlinesAux : List Char → List Char → List (List Char)
  | [], [] => []
  | [], acc => [acc.reverse]
  | '\r' :: '\n' :: rest, acc => acc.reverse :: pySplitlinesAux rest []
  | c :: rest, acc =>
    if isLineBreak c then acc.reverse :: pySplitlinesAux rest []
    else pySplitlinesAux rest (c :: acc)

def pySplitlines (l : List Char) : List (List Char) :=
  pySplitlinesAux l []

/-- Count a maximal run of `(?:\r?\n)` repetitions and return the rest, for
`re.split(r"(?:\r?\n){2,}", content)`. -/
def matchNewlines : List Char → Nat × List Char
  | '\n' :: rest => ((matchNewlines rest).1 + 1, (matchNewlines rest).2)
  | '\r' :: '\n' :: rest => ((matchNewlines rest).1 + 1, (matchNewlines rest).2)
  | l => (0, l)

theorem matchNewlines_le (l : List Char) :
    (matchNewlines l).2.length + (matchNewlines l).1 ≤ l.length := by
  induction l using matchNewlines.induct with
  | case1 rest ih => simp only [matchNewlines, List.length_cons]; omega
  | case2 rest ih => simp only [matchNewlines, List.length_cons]; omega
  | case3 l h1 h2 =>
    rw [matchNewlines.eq_def]
    split <;> simp_all

/-- `re.split(r"(?:\r?\n){2,}", content)`: scan left to right; a maximal run
of two or more `\r?\n` units is a separator. -/
def splitBlocksAux : List Char → List Char → List (List Char)
  | [], acc => [acc.reverse]
  | c :: cs, acc =>
    if _h : 2 ≤ (matchNewlines (c :: cs)).1 then
      acc.reverse :: splitBlocksAux (matchNewlines (c :: cs)).2 []
    else
      splitBlocksAux cs (c :: acc)
termination_by l _ => l.length
decreasing_by
  · have := matchNewlines_le (c :: cs)
    simp only [List.length_cons] at *
    omega
  · simp

def splitBlocks (content : String) : List String :=
  (splitBlocksAux content.toList []).map fun l => ⟨l⟩

end Foches

namespace Foches

/-- The character class of `re_kv`'s key group:
`[A-Za-zÉÈÊËÀÂÄÔÖÎÏÛÜÇéèêëàâäôöîïûüç\s/.-]`. -/
def allowedKeyChar (c : Char) : Bool :=
  (('A' ≤ c && c ≤ 'Z') || ('a' ≤ c && c ≤ 'z')) ||
  c ∈ ['É', 'È', 'Ê', 'Ë', 'À', 'Â', 'Ä', 'Ô', 'Ö', 'Î', 'Ï', 'Û', 'Ü', 'Ç',
       'é', 'è', 'ê', 'ë', 'à', 'â', 'ä', 'ô', 'ö', 'î', 'ï', 'û', 'ü', 'ç'] ||
  pyIsSpace c || c = '/' || c = '.' || c = '-'

/-- `re_kv.match(line)` for `^\s*([key-class]+)\s*:\s*(.+?)\s*$` on an
already-stripped line.  The key class contains whitespace but not `:`, so a
match exists iff the maximal key-class prefix is non-empty, is followed by
`:`, and something non-empty (after stripping) follows the colon.  Returns
(raw group 1, stripped group 2). -/
def kvMatch (line : List Char) : Option (List Char × List Char) :=
  let p := line.takeWhile allowedKeyChar
  if p.isEmpty then none
  else
    match line.drop p.length with
    | ':' :: rest =>
      let v := pyStrip rest
      if v.isEmpty then none else some (p, v)
    | _ => none

/-- `re_iban`: `^[A-Z]{2}\d{2}[A-Z0-9]{11,}$`. -/
def ibanShape (v : List Char) : Bool :=
  match v with
  | a :: b :: c :: d :: rest =>
    ('A' ≤ a && a ≤ 'Z') && ('A' ≤ b && b ≤ 'Z') && c.isDigit && d.isDigit &&
    (11 ≤ rest.length) && rest.all (fun x => ('A' ≤ x && x ≤ 'Z') || x.isDigit)
  | _ => false

/-- `re_cp.match(val)` for `.*?\((\d{5})\)\s*$` on a stripped value: matches
iff the value ends with `(` + five digits + `)`.  Returns (postal code,
`val[:val.rfind("(")].strip()`), mirroring the city/postal extraction. -/
def cpSuffix (v : List Char) : Option (List Char × List Char) :=
  match v.reverse with
  | ')' :: d1 :: d2 :: d3 :: d4 :: d5 :: '(' :: _ =>
    if d1.isDigit && d2.isDigit && d3.isDigit && d4.isDigit && d5.isDigit then
      some ([d5, d4, d3, d2, d1], pyStrip (v.take (v.length - 7)))
    else none
  | _ => none

/-- `re.split` on the dash-or-slash separator pattern (with `\s*` on both
sides, `maxsplit=1`) followed by `.strip()` on both parts: split at the
first `-` or `/`; the consumed `\s*` around the separator is subsumed by
the strips. -/
def splitNameSep (line : List Char) : Option (List Char × List Char) :=
  match line.findIdx? (fun c => c = '-' || c = '/') with
  | some i => some (pyStrip (line.take i), pyStrip (line.drop (i + 1)))
  | none => none

/-- `needle in haystack` on character lists (Python substring test). -/
def hasSub (needle : List Char) : List Char → Bool
  | [] => needle.isEmpty
  | l@(_ :: rest) => needle.isPrefixOf l || hasSub needle rest

/-- The `data` dictionary of `parse_txt_block` (src/main.py:170-177). -/
structure RecData where
  rid : Option String := none
  iban : Option String := none
  bic : Option String := none
  full_name_raw : Option String := none
  first_name : Option String := none
  last_name : Option String := none
  dob : Option String := none
  email : Option String := none
  statut : Option String := none
  adresse : Option String := none
  ville : Option String := none
  cp : Option String := none
  mobile : Option String := none
  voip : Option String := none
  notes : List String := []
  next_rdv_iso : Option String := none
deriving Repr, DecidableEq

/-- First loop of `parse_txt_block` (src/main.py:182-203): leading lines are
scanned for `IBAN`/`BIC` key-values; the first line without a `:` (that is
not `IBAN`/`BIC`-prefixed) becomes the name line and stops the loop; other
`key: value` lines before the name line are skipped.  Returns the updated
data and the lines remaining after the name line. -/
def nameScan : List (List Char) → RecData → RecData × List (List Char)
  | [], d => (d, [])
  | line :: rest, d =>
    if "IBAN".toList.isPrefixOf (line.map Char.toUpper) then
      let d :=
        match kvMatch line with
        | some (_, v) =>
          let v2 := v.filter (fun c => c ≠ ' ')
          if ibanShape v2 then { d with iban := some ⟨v2⟩ } else d
        | none => d
      nameScan rest d
    else if "BIC".toList.isPrefixOf (line.map Char.toUpper) then
      let d :=
        match kvMatch line with
        | some (_, v) => { d with bic := some ⟨v⟩ }
        | none => d
      nameScan rest d
    else if line.contains ':' then
      nameScan rest d
    else
      let d := { d with full_name_raw := some ⟨line⟩ }
      match splitNameSep line with
      | some (p1, p2) => ({ d with last_name := some ⟨p1⟩, first_name := some ⟨p2⟩ }, rest)
      | none => ({ d with last_name := some ⟨pyStrip line⟩ }, rest)

/-- One `key: value` line of the second loop (src/main.py:205-229). -/
def applyKV (d : RecData) (line : List Char) : RecData :=
  match kvMatch line with
  | none => d
  | some (k, v) =>
    let key := (pyStrip k).map Char.toLower
    let val : Option (List Char) := if v.map Char.toUpper = "N/A".toList then none else some v
    if "dob".toList.isPrefixOf key || hasSub "naiss".toList key then
      { d with dob := val.map fun l => ⟨l⟩ }
    else if "email".toList.isPrefixOf key then
      { d with email := val.map fun l => ⟨l⟩ }
    else if "statut".toList.isPrefixOf key then
      { d with statut := val.map fun l => ⟨l⟩ }
    else if "adresse".toList.isPrefixOf key then
      { d with adresse := val.map fun l => ⟨l⟩ }
    else if "ville".toList.isPrefixOf key then
      match val with
      | some v =>
        match cpSuffix v with
        | some (cp, ville) => { d with cp := some ⟨cp⟩, ville := some ⟨ville⟩ }
        | none => { d with ville := some ⟨v⟩ }
      | none => { d with ville := none }
    else if "mobile".toList.isPrefixOf key then
      { d with mobile := normalize_phone (val.map fun l => ⟨l⟩) }
    else if "voip".toList.isPrefixOf key then
      { d with voip := normalize_phone (val.map fun l => ⟨l⟩) }
    else if "iban".toList.isPrefixOf key && d.iban = none then
      let v2 := (val.getD []).filter (fun c => c ≠ ' ')
      if ibanShape v2 then { d with iban := some ⟨v2⟩ } else d
    else if "bic".toList.isPrefixOf key && d.bic = none then
      { d with bic := val.map fun l => ⟨l⟩ }
    else d

/-- Second loop of `parse_txt_block` (src/main.py:205-229). -/
def kvScan (lines : List (List Char)) (d : RecData) : RecData :=
  lines.foldl applyKV d

/-- `[l.strip() for l in block.splitlines() if l.strip()]`. -/
def blockLines (block : String) : List (List Char) :=
  ((pySplitlines block.toList).map pyStrip).filter (fun l => ¬l.isEmpty)

/-- The data extracted from one block: both loops of `parse_txt_block`
applied to its non-empty stripped lines. -/
def extractData (block : String) : RecData :=
  let lines := blockLines block
  let (d, rest) := nameScan lines {}
  kvScan rest d

/-- `not any([mobile, voip, email, full_name_raw, iban])`
(src/main.py:231). -/
def fiveAbsent (d : RecData) : Bool :=
  !(pyTruthy d.mobile || pyTruthy d.voip || pyTruthy d.email ||
    pyTruthy d.full_name_raw || pyTruthy d.iban)

/-- `parse_txt_block` (src/main.py:166-233). -/
def parse_txt_block (block : String) : Option RecData :=
  if (blockLines block).isEmpty then none
  else if fiveAbsent (extractData block) then none
  else some (extractData block)

/-- `parse_txt_blocks` (src/main.py:235-241): split on blank-line runs and
keep the blocks that produce a record. -/
def parse_txt_blocks (content : String) : List RecData :=
  (splitBlocks content).filterMap parse_txt_block

end Foches

/-- C7: `parse_txt_block` returns no record exactly when the extracted
fields contain no mobile, no voip, no email, no name (`full_name_raw`) and
no IBAN (Python truthiness: absent means `None` or empty); and every
returned record has at least one of those five fields. -/
theorem c7_block_rejection_iff :
    (∀ b, Foches.parse_txt_block b = none
      ↔ Foches.fiveAbsent (Foches.extractData b) = true)
    ∧ (∀ b r, Foches.parse_txt_block b = some r → Foches.fiveAbsent r = false) := by
  constructor
  · intro b
    unfold Foches.parse_txt_block
    by_cases h1 : (Foches.blockLines b).isEmpty
    · rw [if_pos h1]
      have h2 : Foches.blockLines b = [] := List.isEmpty_iff.mp h1
      constructor
      · intro _
        unfold Foches.extractData
        rw [h2]
        rfl
      · intro _
        rfl
    · rw [if_neg h1]
      by_cases h2 : Foches.fiveAbsent (Foches.extractData b) = true
      · rw [if_pos h2]
        simp [h2]
      · rw [if_neg h2]
        simp [h2]
  · intro b r h
    unfold Foches.parse_txt_block at h
    by_cases h1 : (Foches.blockLines b).isEmpty
    · rw [if_pos h1] at h
      cases h
    · rw [if_neg h1] at h
      by_cases h2 : Foches.fiveAbsent (Foches.extractData b) = true
      · rw [if_pos h2] at h
        cases h
      · rw [if_neg h2] at h
        cases h
        cases hb : Foches.fiveAbsent (Foches.extractData b) with
        | false => rfl
        | true => exact absurd hb h2

/-- C8: `parse_txt_blocks` is a total function of the payload (it is a Lean
`def`, defined for every input string, so the embedded parser cannot raise);
the empty payload yields zero records, and each blank-line-separated block
contributes at most one record (a block is accepted or rejected whole). -/
theorem c8_parse_blocks_total :
    Foches.parse_txt_blocks "" = []
    ∧ ∀ content,
        (Foches.parse_txt_blocks content).length ≤ (Foches.splitBlocks content).length := by
  constructor
  · have h : Foches.splitBlocks "" = [""] := by
      simp only [Foches.splitBlocks]
      rw [Foches.splitBlocksAux.eq_def]
      rfl
    simp only [Foches.parse_txt_blocks, h]
    rfl
  · intro content
    exact List.length_filterMap_le _ _

namespace Foches

/-- One entry of `CALLERS[user_id]`: `{"id", "name", "active"}`. -/
structure Caller where
  id : String
  name : String
  active : Bool
deriving Repr, DecidableEq

/-- One entry of `REC_ASSIGN` / `REC_LAST_CALLER`:
`{"caller_id", "name", "since_iso"/"last_iso"}`. -/
structure Assign where
  caller_id : String
  name : String
  since_iso : String
deriving Repr, DecidableEq

/-- One entry of `TREATED_META`: `{"caller_id", "at_iso"}` where the caller
id may be absent. -/
structure TreatedMeta where
  caller_id : Option String
  at_iso : String
deriving Repr, DecidableEq

/-- One day's bucket of `USER_DAILY_STATS[user_id]`:
`{"treated": 0, "missed": 0, "cases": 0}`. -/
structure DayStats where
  treated : Int := 0
  missed : Int := 0
  cases : Int := 0
deriving Repr, DecidableEq

/-- The three tracked disposition states (`lists` in `_exclusive_move`). -/
inductive DispoTarget
  | ongoing
  | treated
  | missed
deriving Repr, DecidableEq

/-- The keys `inc_stat` accepts. -/
inductive StatKey
  | treated
  | missed
  | cases
deriving Repr, DecidableEq

/-- Point update of a one-key dictionary modelled as a total function. -/
def upd1 {α : Type} (f : String → α) (k : String) (v : α) : String → α :=
  fun x => if x = k then v else f x

/-- Point update of a two-key dictionary modelled as a total function. -/
def upd2 {α : Type} (f : String → String → α) (b k : String) (v : α) :
    String → String → α :=
  fun x y => if x = b ∧ y = k then v else f x y

/-- One operator's disposition-engine state: the `(user_id)`-slices of the
global dictionaries of src/main.py (keyed by dataset name `base` and day
string), plus `find_record`'s view of `BASES` as the record ids present in
each dataset. -/
structure DispoState where
  records : String → List String
  callers : List Caller
  inprogress : String → List String
  treatedIds : String → List String
  missedIds : String → List String
  stats : String → DayStats
  assign : String → String → Option Assign
  lastCaller : String → String → Option Assign
  treatedMeta : String → String → Option TreatedMeta

/-- `inc_stat(user_id, key, delta)` (src/main.py:127-131) on the given
day's bucket (`get_today_stats` defaults the bucket to zeros). -/
def incStat (s : DispoState) (day : String) (k : StatKey) (delta : Int) : DispoState :=
  let b := s.stats day
  { s with
    stats := upd1 s.stats day
      (match k with
       | .treated => { b with treated := b.treated + delta }
       | .missed => { b with missed := b.missed + delta }
       | .cases => { b with cases := b.cases + delta }) }

/-- `_exclusive_move(user_id, base, rid, target)` (src/main.py:876-892):
remove `rid` from the other two lists (decrementing today's `cases` or
`missed` on removal from ongoing or missed), then append it to the target
list if absent (incrementing the matching counter). -/
def exclusiveMove (s : DispoState) (day base rid : String) (target : DispoTarget) :
    DispoState :=
  let s :=
    if rid ∈ s.inprogress base ∧ target ≠ DispoTarget.ongoing then
      incStat { s with inprogress := upd1 s.inprogress base ((s.inprogress base).erase rid) }
        day .cases (-1)
    else s
  let s :=
    if rid ∈ s.treatedIds base ∧ target ≠ DispoTarget.treated then
      { s with treatedIds := upd1 s.treatedIds base ((s.treatedIds base).erase rid) }
    else s
  let s :=
    if rid ∈ s.missedIds base ∧ target ≠ DispoTarget.missed then
      incStat { s with missedIds := upd1 s.missedIds base ((s.missedIds base).erase rid) }
        day .missed (-1)
    else s
  match target with
  | .ongoing =>
    if rid ∈ s.inprogress base then s
    else
      incStat { s with inprogress := upd1 s.inprogress base (s.inprogress base ++ [rid]) }
        day .cases 1
  | .treated =>
    if rid ∈ s.treatedIds base then s
    else
      incStat { s with treatedIds := upd1 s.treatedIds base (s.treatedIds base ++ [rid]) }
        day .treated 1
  | .missed =>
    if rid ∈ s.missedIds base then s
    else
      incStat { s with missedIds := upd1 s.missedIds base (s.missedIds base ++ [rid]) }
        day .missed 1

/-- `rec_do` with action `ongoing` (src/main.py:990-1020): requires the
record to exist and the caller id to resolve in `CALLERS` (the handler does
not check `active` here); exclusive-moves to ongoing and records the
assignment and last-caller entries. -/
def rec_do_ongoing (s : DispoState) (day now base rid caller_id : String) : DispoState :=
  if rid ∈ s.records base then
    match s.callers.find? (fun c => c.id = caller_id) with
    | none => s
    | some c =>
      let s := exclusiveMove s day base rid .ongoing
      let s := { s with assign := upd2 s.assign base rid (some ⟨caller_id, c.name, now⟩) }
      { s with lastCaller := upd2 s.lastCaller base rid (some ⟨caller_id, c.name, now⟩) }
  else s

/-- `rec_ask` with action `finish` (src/main.py:958-974): exclusive-move to
treated, pop the ongoing assignment into the last-caller map, and record
the treated-audit entry. -/
def rec_ask_finish (s : DispoState) (day now base rid : String) : DispoState :=
  if rid ∈ s.records base then
    let s1 := exclusiveMove s day base rid .treated
    let a := s1.assign base rid
    let s2 := { s1 with assign := upd2 s1.assign base rid none }
    let s3 :=
      match a with
      | some a =>
        { s2 with lastCaller := upd2 s2.lastCaller base rid (some ⟨a.caller_id, a.name, now⟩) }
      | none => s2
    let cid : Option String :=
      match a with
      | some a => some a.caller_id
      | none => (s3.lastCaller base rid).map fun lc => lc.caller_id
    { s3 with treatedMeta := upd2 s3.treatedMeta base rid (some ⟨cid, now⟩) }
  else s

/-- `rec_ask` with action `missed` (src/main.py:976-988): exclusive-move to
missed and pop the ongoing assignment into the last-caller map. -/
def rec_ask_missed (s : DispoState) (day now base rid : String) : DispoState :=
  if rid ∈ s.records base then
    let s1 := exclusiveMove s day base rid .missed
    let a := s1.assign base rid
    let s2 := { s1 with assign := upd2 s1.assign base rid none }
    match a with
    | some a =>
      { s2 with lastCaller := upd2 s2.lastCaller base rid (some ⟨a.caller_id, a.name, now⟩) }
    | none => s2
  else s

/-- One operator-triggered disposition action, with the wall clock (day
bucket key and ISO timestamp) as explicit parameters. -/
inductive DispoOp
  | markOngoing (day now base rid caller_id : String)
  | markTreated (day now base rid : String)
  | markMissed (day now base rid : String)

def applyDispoOp (s : DispoState) : DispoOp → DispoState
  | .markOngoing day now base rid cid => rec_do_ongoing s day now base rid cid
  | .markTreated day now base rid => rec_ask_finish s day now base rid
  | .markMissed day now base rid => rec_ask_missed s day now base rid

def applyDispoOps (s : DispoState) (ops : List DispoOp) : DispoState :=
  ops.foldl applyDispoOp s

/-- The initial per-operator state installed by `ensure_user` /
`set_active_db`: all tracked lists, stat buckets and maps empty. -/
def initDispo (records : String → List String) (callers : List Caller) : DispoState :=
  { records := records
    callers := callers
    inprogress := fun _ => []
    treatedIds := fun _ => []
    missedIds := fun _ => []
    stats := fun _ => {}
    assign := fun _ _ => none
    lastCaller := fun _ _ => none
    treatedMeta := fun _ _ => none }

end Foches

namespace Foches

/-- `_exclusive_move` on the ongoing list: at `base`, append if the move
targets ongoing (and the id is absent), otherwise erase the id. -/
theorem em_inprogress (s : DispoState) (day base rid : String) (t : DispoTarget) :
    (exclusiveMove s day base rid t).inprogress =
      upd1 s.inprogress base
        (if t = DispoTarget.ongoing then
           (if rid ∈ s.inprogress base then s.inprogress base else s.inprogress base ++ [rid])
         else (s.inprogress base).erase rid) := by
  funext x
  cases t <;>
    simp only [exclusiveMove, incStat, upd1] <;>
    split_ifs <;>
    simp_all [upd1, List.erase_of_not_mem]

/-- `_exclusive_move` on the treated list. -/
theorem em_treated (s : DispoState) (day base rid : String) (t : DispoTarget) :
    (exclusiveMove s day base rid t).treatedIds =
      upd1 s.treatedIds base
        (if t = DispoTarget.treated then
           (if rid ∈ s.treatedIds base then s.treatedIds base else s.treatedIds base ++ [rid])
         else (s.treatedIds base).erase rid) := by
  funext x
  cases t <;>
    simp only [exclusiveMove, incStat, upd1] <;>
    split_ifs <;>
    simp_all [upd1, List.erase_of_not_mem]

/-- `_exclusive_move` on the missed list. -/
theorem em_missed (s : DispoState) (day base rid : String) (t : DispoTarget) :
    (exclusiveMove s day base rid t).missedIds =
      upd1 s.missedIds base
        (if t = DispoTarget.missed then
           (if rid ∈ s.missedIds base then s.missedIds base else s.missedIds base ++ [rid])
         else (s.missedIds base).erase rid) := by
  funext x
  cases t <;>
    simp only [exclusiveMove, incStat, upd1] <;>
    split_ifs <;>
    simp_all [upd1, List.erase_of_not_mem]

/-- `_exclusive_move` touches only the three lists and the daily stats. -/
theorem em_frame (s : DispoState) (day base rid : String) (t : DispoTarget) :
    (exclusiveMove s day base rid t).records = s.records
    ∧ (exclusiveMove s day base rid t).callers = s.callers
    ∧ (exclusiveMove s day base rid t).assign = s.assign
    ∧ (exclusiveMove s day base rid t).lastCaller = s.lastCaller
    ∧ (exclusiveMove s day base rid t).treatedMeta = s.treatedMeta := by
  cases t <;>
    simp only [exclusiveMove, incStat] <;>
    split_ifs <;>
    simp_all

end Foches

namespace Foches

/-- The Disposition Engine's tracked-list invariant: per dataset, each of
the three lists is duplicate-free and no record id sits in two lists. -/
def listsOk (s : DispoState) : Prop :=
  ∀ b, (s.inprogress b).Nodup ∧ (s.treatedIds b).Nodup ∧ (s.missedIds b).Nodup
    ∧ ∀ r, ¬(r ∈ s.inprogress b ∧ r ∈ s.treatedIds b)
         ∧ ¬(r ∈ s.inprogress b ∧ r ∈ s.missedIds b)
         ∧ ¬(r ∈ s.treatedIds b ∧ r ∈ s.missedIds b)

/-- Moving into one list (append if absent) while erasing from the other
two preserves duplicate-freeness and pairwise exclusivity. -/
theorem move_triple_ok {A B C : List String} (rid : String)
    (hA : A.Nodup) (hB : B.Nodup) (hC : C.Nodup)
    (hAB : ∀ r, ¬(r ∈ A ∧ r ∈ B)) (hAC : ∀ r, ¬(r ∈ A ∧ r ∈ C))
    (hBC : ∀ r, ¬(r ∈ B ∧ r ∈ C)) :
    (if rid ∈ A then A else A ++ [rid]).Nodup
    ∧ (B.erase rid).Nodup ∧ (C.erase rid).Nodup
    ∧ (∀ r, ¬(r ∈ (if rid ∈ A then A else A ++ [rid]) ∧ r ∈ B.erase rid))
    ∧ (∀ r, ¬(r ∈ (if rid ∈ A then A else A ++ [rid]) ∧ r ∈ C.erase rid))
    ∧ (∀ r, ¬(r ∈ B.erase rid ∧ r ∈ C.erase rid)) := by
  refine ⟨?_, hB.erase rid, hC.erase rid, ?_, ?_, ?_⟩
  · split_ifs with h
    · exact hA
    · simp [List.nodup_append, hA, h]
  · intro r ⟨h1, h2⟩
    rw [hB.mem_erase_iff] at h2
    have h1' : r ∈ A := by
      split_ifs at h1 with h
      · exact h1
      · rcases List.mem_append.mp h1 with h1 | h1
        · exact h1
        · simp at h1; exact absurd h1 h2.1
    exact hAB r ⟨h1', h2.2⟩
  · intro r ⟨h1, h2⟩
    rw [hC.mem_erase_iff] at h2
    have h1' : r ∈ A := by
      split_ifs at h1 with h
      · exact h1
      · rcases List.mem_append.mp h1 with h1 | h1
        · exact h1
        · simp at h1; exact absurd h1 h2.1
    exact hAC r ⟨h1', h2.2⟩
  · intro r ⟨h1, h2⟩
    exact hBC r ⟨List.mem_of_mem_erase h1, List.mem_of_mem_erase h2⟩

/-- `_exclusive_move` preserves the tracked-list invariant. -/
theorem em_listsOk {s : DispoState} (h : listsOk s) (day base rid : String)
    (t : DispoTarget) : listsOk (exclusiveMove s day base rid t) := by
  intro b
  rw [em_inprogress, em_treated, em_missed]
  by_cases hb : b = base
  · subst hb
    obtain ⟨hO, hT, hM, hd⟩ := h b
    simp only [upd1, if_pos rfl]
    cases t with
    | ongoing =>
      simp only [reduceCtorEq, if_pos rfl, if_neg]
      obtain ⟨n1, n2, n3, d1, d2, d3⟩ :=
        move_triple_ok rid hO hT hM (fun r hr => (hd r).1 hr)
          (fun r hr => (hd r).2.1 hr) (fun r hr => (hd r).2.2 hr)
      exact ⟨n1, n2, n3, fun r => ⟨d1 r, d2 r, d3 r⟩⟩
    | treated =>
      simp only [reduceCtorEq, if_pos rfl, if_neg]
      obtain ⟨n1, n2, n3, d1, d2, d3⟩ :=
        move_triple_ok rid hT hO hM (fun r hr => (hd r).1 ⟨hr.2, hr.1⟩)
          (fun r hr => (hd r).2.2 hr) (fun r hr => (hd r).2.1 hr)
      exact ⟨n2, n1, n3, fun r =>
        ⟨fun hr => d1 r ⟨hr.2, hr.1⟩, fun hr => d3 r hr, fun hr => d2 r hr⟩⟩
    | missed =>
      simp only [reduceCtorEq, if_pos rfl, if_neg]
      obtain ⟨n1, n2, n3, d1, d2, d3⟩ :=
        move_triple_ok rid hM hO hT (fun r hr => (hd r).2.1 ⟨hr.2, hr.1⟩)
          (fun r hr => (hd r).2.2 ⟨hr.2, hr.1⟩) (fun r hr => (hd r).1 hr)
      exact ⟨n2, n3, n1, fun r =>
        ⟨fun hr => d3 r hr, fun hr => d1 r ⟨hr.2, hr.1⟩, fun hr => d2 r ⟨hr.2, hr.1⟩⟩⟩
  · simp only [upd1, if_neg hb]
    exact h b

/-- Every disposition handler preserves the tracked-list invariant. -/
theorem op_listsOk {s : DispoState} (h : listsOk s) (op : DispoOp) :
    listsOk (applyDispoOp s op) := by
  cases op with
  | markOngoing day now base rid cid =>
    simp only [applyDispoOp, rec_do_ongoing]
    split_ifs with hg
    · cases hf : s.callers.find? (fun c => c.id = cid) with
      | none => simp only [hf]; exact h
      | some c =>
        simp only [hf]
        intro b
        simpa using em_listsOk h day base rid .ongoing b
    · exact h
  | markTreated day now base rid =>
    simp only [applyDispoOp, rec_ask_finish]
    split_ifs with hg
    · cases ha : (exclusiveMove s day base rid .treated).assign base rid with
      | none =>
        simp only [ha]
        intro b
        simpa using em_listsOk h day base rid .treated b
      | some a =>
        simp only [ha]
        intro b
        simpa using em_listsOk h day base rid .treated b
    · exact h
  | markMissed day now base rid =>
    simp only [applyDispoOp, rec_ask_missed]
    split_ifs with hg
    · cases ha : (exclusiveMove s day base rid .missed).assign base rid with
      | none =>
        simp only [ha]
        intro b
        simpa using em_listsOk h day base rid .missed b
      | some a =>
        simp only [ha]
        intro b
        simpa using em_listsOk h day base rid .missed b
    · exact h

/-- The invariant holds along any sequence of disposition handlers. -/
theorem ops_listsOk {s : DispoState} (h : listsOk s) (ops : List DispoOp) :
    listsOk (applyDispoOps s ops) := by
  induction ops generalizing s with
  | nil => simpa [applyDispoOps] using h
  | cons op rest ih =>
    simp only [applyDispoOps, List.foldl_cons] at *
    exact ih (op_listsOk h op)

end Foches

/-- C1: starting from the fresh per-operator state, after any sequence of
disposition operations (`rec:do` markOngoing, `finish` markTreated,
`missed` markMissed) every record id belongs to at most one of the three
tracked sets `USER_INPROGRESS`, `USER_TREATED`, `USER_MISSED` of each
(operator, dataset) pair. -/
theorem c1_disposition_exclusive (records : String → List String)
    (callers : List Foches.Caller) (ops : List Foches.DispoOp) (base rid : String) :
    ¬(rid ∈ (Foches.applyDispoOps (Foches.initDispo records callers) ops).inprogress base
        ∧ rid ∈ (Foches.applyDispoOps (Foches.initDispo records callers) ops).treatedIds base)
    ∧ ¬(rid ∈ (Foches.applyDispoOps (Foches.initDispo records callers) ops).inprogress base
        ∧ rid ∈ (Foches.applyDispoOps (Foches.initDispo records callers) ops).missedIds base)
    ∧ ¬(rid ∈ (Foches.applyDispoOps (Foches.initDispo records callers) ops).treatedIds base
        ∧ rid ∈ (Foches.applyDispoOps (Foches.initDispo records callers) ops).missedIds base) := by
  have hinit : Foches.listsOk (Foches.initDispo records callers) := by
    intro b
    simp [Foches.initDispo]
  obtain ⟨-, -, -, hd⟩ := Foches.ops_listsOk hinit ops base
  exact ⟨(hd rid).1, (hd rid).2.1, (hd rid).2.2⟩

namespace Foches

/-- Removing a record from ongoing (moving it to another state) decrements
today's `cases` counter by exactly one. -/
theorem em_cases_dec (s : DispoState) (day base rid : String) (t : DispoTarget)
    (hmem : rid ∈ s.inprogress base) (ht : t ≠ DispoTarget.ongoing) :
    ((exclusiveMove s day base rid t).stats day).cases = (s.stats day).cases - 1 := by
  cases t <;>
    first
    | exact absurd rfl ht
    | (simp only [exclusiveMove, incStat, upd1]
       split_ifs <;> simp_all [upd1] <;> omega)

/-- Removing a record from missed (moving it to another state) decrements
today's `missed` counter by exactly one. -/
theorem em_missed_dec (s : DispoState) (day base rid : String) (t : DispoTarget)
    (hmem : rid ∈ s.missedIds base) (ht : t ≠ DispoTarget.missed) :
    ((exclusiveMove s day base rid t).stats day).missed = (s.stats day).missed - 1 := by
  cases t <;>
    first
    | exact absurd rfl ht
    | (simp only [exclusiveMove, incStat, upd1]
       split_ifs <;> simp_all [upd1] <;> omega)

/-- `_exclusive_move` never decrements any day's `treated` counter. -/
theorem em_treated_mono (s : DispoState) (day base rid : String) (t : DispoTarget)
    (d : String) :
    (s.stats d).treated ≤ ((exclusiveMove s day base rid t).stats d).treated := by
  cases t <;>
    simp only [exclusiveMove, incStat, upd1] <;>
    split_ifs <;>
    simp_all [upd1] <;>
    all_goals (split_ifs <;> simp_all)

/-- No disposition handler decrements any day's `treated` counter. -/
theorem op_treated_mono (s : DispoState) (op : DispoOp) (d : String) :
    (s.stats d).treated ≤ ((applyDispoOp s op).stats d).treated := by
  cases op with
  | markOngoing day now base rid cid =>
    simp only [applyDispoOp, rec_do_ongoing]
    split_ifs with hg
    · cases hf : s.callers.find? (fun c => c.id = cid) with
      | none => simp only [hf]; exact le_refl _
      | some c =>
        simp only [hf]
        simpa using em_treated_mono s day base rid .ongoing d
    · exact le_refl _
  | markTreated day now base rid =>
    simp only [applyDispoOp, rec_ask_finish]
    split_ifs with hg
    · cases ha : (exclusiveMove s day base rid .treated).assign base rid with
      | none =>
        simp only [ha]
        simpa using em_treated_mono s day base rid .treated d
      | some a =>
        simp only [ha]
        simpa using em_treated_mono s day base rid .treated d
    · exact le_refl _
  | markMissed day now base rid =>
    simp only [applyDispoOp, rec_ask_missed]
    split_ifs with hg
    · cases ha : (exclusiveMove s day base rid .missed).assign base rid with
      | none =>
        simp only [ha]
        simpa using em_treated_mono s day base rid .missed d
      | some a =>
        simp only [ha]
        simpa using em_treated_mono s day base rid .missed d
    · exact le_refl _

end Foches

/-- C10: disposition transitions adjust daily counters asymmetrically:
moving a record out of ongoing (resp. missed) decrements the current day's
`cases` (resp. `missed`) counter by one — with day buckets keyed by the
transition's own day, so a record marked ongoing on day d1 and treated on
day d2 drives d2's `cases` counter to −1 — while no disposition handler
ever decrements any day's `treated` counter. -/
theorem c10_counter_asymmetry :
    (∀ (s : Foches.DispoState) (day base rid : String) (t : Foches.DispoTarget),
      rid ∈ s.inprogress base → t ≠ Foches.DispoTarget.ongoing →
      ((Foches.exclusiveMove s day base rid t).stats day).cases = (s.stats day).cases - 1)
    ∧ (∀ (s : Foches.DispoState) (day base rid : String) (t : Foches.DispoTarget),
      rid ∈ s.missedIds base → t ≠ Foches.DispoTarget.missed →
      ((Foches.exclusiveMove s day base rid t).stats day).missed = (s.stats day).missed - 1)
    ∧ (∀ (s : Foches.DispoState) (op : Foches.DispoOp) (d : String),
      (s.stats d).treated ≤ ((Foches.applyDispoOp s op).stats d).treated)
    ∧ (((Foches.applyDispoOps
          (Foches.initDispo (fun b => if b = "B" then ["1"] else []) [⟨"a", "A", true⟩])
          [Foches.DispoOp.markOngoing "d1" "t1" "B" "1" "a",
           Foches.DispoOp.markTreated "d2" "t2" "B" "1"]).stats "d2").cases = -1
        ∧ ((Foches.applyDispoOps
          (Foches.initDispo (fun b => if b = "B" then ["1"] else []) [⟨"a", "A", true⟩])
          [Foches.DispoOp.markOngoing "d1" "t1" "B" "1" "a",
           Foches.DispoOp.markTreated "d2" "t2" "B" "1"]).stats "d1").cases = 1) := by
  refine ⟨Foches.em_cases_dec, Foches.em_missed_dec, Foches.op_treated_mono, ?_, ?_⟩ <;> decide

namespace Foches

/-- Moving a net-new record into ongoing increments today's `cases` by one. -/
theorem em_cases_inc (s : DispoState) (day base rid : String)
    (h : rid ∉ s.inprogress base) :
    ((exclusiveMove s day base rid .ongoing).stats day).cases = (s.stats day).cases + 1 := by
  simp only [exclusiveMove, incStat, upd1]
  split_ifs <;> simp_all [upd1] <;> omega

/-- Moving an already-ongoing record into ongoing leaves today's `cases`
unchanged (the idempotent repeat). -/
theorem em_cases_noop (s : DispoState) (day base rid : String)
    (h : rid ∈ s.inprogress base) :
    ((exclusiveMove s day base rid .ongoing).stats day).cases = (s.stats day).cases := by
  simp only [exclusiveMove, incStat, upd1]
  split_ifs <;> simp_all [upd1] <;> omega

end Foches

/-- C9: `markOngoing(r, callerA)` followed by `markOngoing(r, callerB)`
(both callers resolvable, the record present, no record ongoing initially)
leaves `r` as the sole ongoing entry, present once; the assignment map for
`r` shows callerB with the second call's timestamp; and the operator's
daily ongoing counter (`cases`) is incremented exactly once across the two
calls. -/
theorem c9_mark_ongoing_idempotent (s : Foches.DispoState)
    (day nowA nowB base rid callerA callerB : String) (cA cB : Foches.Caller)
    (hrec : rid ∈ s.records base)
    (hA : s.callers.find? (fun c => c.id = callerA) = some cA)
    (hB : s.callers.find? (fun c => c.id = callerB) = some cB)
    (hO : s.inprogress base = []) :
    (Foches.rec_do_ongoing (Foches.rec_do_ongoing s day nowA base rid callerA)
        day nowB base rid callerB).inprogress base = [rid]
    ∧ (Foches.rec_do_ongoing (Foches.rec_do_ongoing s day nowA base rid callerA)
        day nowB base rid callerB).assign base rid = some ⟨callerB, cB.name, nowB⟩
    ∧ ((Foches.rec_do_ongoing (Foches.rec_do_ongoing s day nowA base rid callerA)
        day nowB base rid callerB).stats day).cases = (s.stats day).cases + 1 := by
  set s1 := Foches.rec_do_ongoing s day nowA base rid callerA with hs1
  have hs1_in : s1.inprogress base = [rid] := by
    rw [hs1]
    simp only [Foches.rec_do_ongoing, if_pos hrec, hA]
    rw [Foches.em_inprogress]
    simp [Foches.upd1, hO]
  have hs1_rec : s1.records = s.records := by
    rw [hs1]
    simp only [Foches.rec_do_ongoing, if_pos hrec, hA]
    exact (Foches.em_frame s day base rid .ongoing).1
  have hs1_callers : s1.callers = s.callers := by
    rw [hs1]
    simp only [Foches.rec_do_ongoing, if_pos hrec, hA]
    exact (Foches.em_frame s day base rid .ongoing).2.1
  have hs1_cases : (s1.stats day).cases = (s.stats day).cases + 1 := by
    rw [hs1]
    simp only [Foches.rec_do_ongoing, if_pos hrec, hA]
    exact Foches.em_cases_inc s day base rid (by rw [hO]; exact List.not_mem_nil rid)
  have hg2 : rid ∈ s1.records base := by rw [hs1_rec]; exact hrec
  have hf2 : s1.callers.find? (fun c => c.id = callerB) = some cB := by
    rw [hs1_callers]; exact hB
  refine ⟨?_, ?_, ?_⟩
  · simp only [Foches.rec_do_ongoing, if_pos hg2, hf2]
    rw [Foches.em_inprogress]
    simp [Foches.upd1, hs1_in]
  · simp only [Foches.rec_do_ongoing, if_pos hg2, hf2]
    simp [Foches.upd2]
  · simp only [Foches.rec_do_ongoing, if_pos hg2, hf2]
    rw [Foches.em_cases_noop s1 day base rid (by rw [hs1_in]; exact List.mem_singleton_self rid)]
    exact hs1_cases

namespace Foches

/-- A concrete one-record, two-caller operator state. -/
def c9ExampleState : DispoState :=
  initDispo (fun b => if b = "B" then ["1"] else [])
    [⟨"a", "Alice", true⟩, ⟨"b", "Bob", true⟩]

end Foches

/-- Witness for C9 at a concrete state: dataset `B`, record `1`, callers
Alice then Bob. -/
theorem c9_mark_ongoing_idempotent_witness :
    (Foches.rec_do_ongoing (Foches.rec_do_ongoing Foches.c9ExampleState "d" "t1" "B" "1" "a")
        "d" "t2" "B" "1" "b").inprogress "B" = ["1"]
    ∧ (Foches.rec_do_ongoing (Foches.rec_do_ongoing Foches.c9ExampleState "d" "t1" "B" "1" "a")
        "d" "t2" "B" "1" "b").assign "B" "1" = some ⟨"b", "Bob", "t2"⟩
    ∧ ((Foches.rec_do_ongoing (Foches.rec_do_ongoing Foches.c9ExampleState "d" "t1" "B" "1" "a")
        "d" "t2" "B" "1" "b").stats "d").cases = (Foches.c9ExampleState.stats "d").cases + 1 :=
  c9_mark_ongoing_idempotent Foches.c9ExampleState "d" "t1" "t2" "B" "1" "a" "b"
    ⟨"a", "Alice", true⟩ ⟨"b", "Bob", true⟩ (by decide) (by decide) (by decide) (by decide)

namespace Foches

/-- One entry of `USER_RDV[user_id][base]`:
`{"id","rid","at_iso","remind_iso","sent","chat_id"}`, with the ISO
timestamps as integer minutes (they are produced internally by
`rec_rdv_create` and always well-formed). -/
structure RdvItem where
  id : String
  rid : String
  at_iso : Int
  remind_iso : Int
  sent : Bool
  chat : Int
deriving Repr, DecidableEq

/-- The dataset store from one operator's viewpoint: `BASES` as the ordered
list of names, the operator's active base, and the per-base slices of
`USER_RDV` and `REC_ASSIGN` (record id → caller id). -/
structure StoreState where
  bases : List String
  active : String
  rdvsByBase : String → List RdvItem
  assignByBase : String → List (String × String)

/-- `re.fullmatch(r"[A-Za-z0-9_]{1,40}", raw)` (src/main.py:637). -/
def validBaseName (name : String) : Bool :=
  name.toList.all (fun c => ('A' ≤ c && c ≤ 'Z') || ('a' ≤ c && c ≤ 'z') ||
    c.isDigit || c = '_')
  && 1 ≤ name.length && name.length ≤ 40

/-- The `awaiting_base_name` branch of `capture_text` (src/main.py:635-661):
reject bad or duplicate names, otherwise append the new base and make it
active. -/
def createBase (s : StoreState) (name : String) : StoreState :=
  if validBaseName name ∧ name ∉ s.bases then
    { s with bases := s.bases ++ [name], active := name }
  else s

/-- `db_open` (src/main.py:543-553): select an existing base. -/
def openBase (s : StoreState) (name : String) : StoreState :=
  if name ∈ s.bases then { s with active := name } else s

/-- `db_drop_confirm` (src/main.py:854-873): refuse unless the base exists,
is the active one, and is not the last base; then delete it from `BASES`
and re-activate `default` (or the first remaining base).  Nothing else is
touched: `USER_RDV` and `REC_ASSIGN` keep their entries for the deleted
name (`set_active_db` only `setdefault`s the new active base). -/
def db_drop_confirm (s : StoreState) (name : String) : StoreState :=
  if name ∈ s.bases then
    if s.active = name then
      if s.bases.length = 1 then s
      else
        { s with
          bases := s.bases.erase name
          active := if "default" ∈ s.bases.erase name then "default"
                    else (s.bases.erase name).headD "" }
    else s
  else s

/-- The dataset-store operations of the claim: create, open, delete. -/
inductive DbOp
  | create (name : String)
  | openDb (name : String)
  | drop (name : String)

def applyDbOp (s : StoreState) : DbOp → StoreState
  | .create n => createBase s n
  | .openDb n => openBase s n
  | .drop n => db_drop_confirm s n

def applyDbOps (s : StoreState) (ops : List DbOp) : StoreState :=
  ops.foldl applyDbOp s

/-- The boot state: `BASES = {"default": …}`, active base `default`. -/
def initStore : StoreState :=
  { bases := ["default"], active := "default",
    rdvsByBase := fun _ => [], assignByBase := fun _ => [] }

/-- Each store operation keeps at least one dataset. -/
theorem applyDbOp_len {s : StoreState} (hs : 1 ≤ s.bases.length) (op : DbOp) :
    1 ≤ (applyDbOp s op).bases.length := by
  cases op with
  | create n =>
    simp only [applyDbOp, createBase]
    split_ifs <;> simp_all <;> omega
  | openDb n =>
    simp only [applyDbOp, openBase]
    split_ifs <;> simp_all
  | drop n =>
    simp only [applyDbOp, db_drop_confirm]
    split_ifs with h1 h2 h3 h4 <;>
      first
      | exact hs
      | (show 1 ≤ (s.bases.erase n).length
         rw [List.length_erase_of_mem h1]
         omega)

end Foches

/-- C4: deleting a dataset is rejected when it is the only remaining one
(`db_drop_confirm` is the identity whenever exactly one dataset exists),
and along every sequence of create/open/delete operations from the boot
state at least one dataset exists. -/
theorem c4_last_dataset_protected :
    (∀ (s : Foches.StoreState) (name : String), s.bases.length = 1 →
      Foches.db_drop_confirm s name = s)
    ∧ (∀ ops : List Foches.DbOp,
      1 ≤ (Foches.applyDbOps Foches.initStore ops).bases.length) := by
  constructor
  · intro s name h
    unfold Foches.db_drop_confirm
    split_ifs with h1 h2 h3 <;> first | rfl | exact absurd h h3
  · intro ops
    have key : ∀ (ops : List Foches.DbOp) (s : Foches.StoreState),
        1 ≤ s.bases.length → 1 ≤ (Foches.applyDbOps s ops).bases.length := by
      intro ops
      induction ops with
      | nil => intro s hs; simpa [Foches.applyDbOps] using hs
      | cons op rest ih =>
        intro s hs
        simp only [Foches.applyDbOps, List.foldl_cons] at *
        exact ih _ (Foches.applyDbOp_len hs op)
    exact key ops Foches.initStore (by simp [Foches.initStore])

namespace Foches

/-- Two datasets, the active one (`b`) holding one pending appointment and
one caller assignment. -/
def c5ExampleState : StoreState :=
  { bases := ["default", "b"], active := "b",
    rdvsByBase := fun x => if x = "b" then [⟨"a1", "r0", 100, 95, false, 7⟩] else [],
    assignByBase := fun x => if x = "b" then [("r0", "callerX")] else [] }

end Foches

/-- C5 (counterexample): deleting dataset `b` succeeds (it disappears from
`BASES`) yet its appointment and its caller assignment are still stored
under the deleted name — the delete does not cascade. -/
theorem c5_drop_no_cascade_counterexample :
    (Foches.db_drop_confirm Foches.c5ExampleState "b").bases = ["default"]
    ∧ (Foches.db_drop_confirm Foches.c5ExampleState "b").rdvsByBase "b"
        = [⟨"a1", "r0", 100, 95, false, 7⟩]
    ∧ (Foches.db_drop_confirm Foches.c5ExampleState "b").assignByBase "b"
        = [("r0", "callerX")] := by
  refine ⟨by decide, by decide, by decide⟩

/-- C5 (amended): a successful delete removes only the `BASES` entry (and
re-activates another base); the appointments in `USER_RDV` and the caller
assignments in `REC_ASSIGN` keyed by the deleted dataset's name are
retained unchanged — deletion does not cascade to them. -/
theorem c5_drop_no_cascade_amended :
    ∀ (s : Foches.StoreState) (name : String),
      (Foches.db_drop_confirm s name).rdvsByBase = s.rdvsByBase
      ∧ (Foches.db_drop_confirm s name).assignByBase = s.assignByBase := by
  intro s name
  unfold Foches.db_drop_confirm
  split_ifs <;> exact ⟨rfl, rfl⟩

namespace Foches

/-- The appointment view of one (operator, dataset) pair: the record ids
`find_record` can resolve, each record's cached `next_rdv_iso`, and the
`USER_RDV` list. -/
structure RdvState where
  records : List String
  next : String → Option Int
  rdvs : List RdvItem

/-- `rec_rdv_create` (src/main.py:1129-1155): if the record exists, roll a
non-future time forward by one day (1440 minutes), append the appointment
(`remind = at − 5` minutes, `sent = False`), and set the record's cached
`next_rdv_iso` to this new appointment's time (`rec["next_rdv_iso"] =
at.isoformat()`, line 1153 — not a recomputation of the earliest). -/
def rec_rdv_create (s : RdvState) (now : Int) (rid : String) (at0 : Int)
    (rdv_id : String) (chat : Int) : RdvState :=
  if rid ∈ s.records then
    let t := if at0 ≤ now then at0 + 1440 else at0
    { s with
      rdvs := s.rdvs ++ [⟨rdv_id, rid, t, t - 5, false, chat⟩]
      next := upd1 s.next rid (some t) }
  else s

/-- The times of `get_upcoming_rdvs(user, base, rid)` (src/main.py:1023-1038):
pending (`not sent`), same record, not in the past. -/
def upcomingAts (s : RdvState) (now : Int) (rid : String) : List Int :=
  (s.rdvs.filter fun it => !it.sent && it.rid = rid && now ≤ it.at_iso).map
    fun it => it.at_iso

/-- Head of the sorted upcoming list = its minimum: the value
`_refresh_record_next_rdv` caches. -/
def earliestUpcoming (s : RdvState) (now : Int) (rid : String) : Option Int :=
  (upcomingAts s now rid).minimum?

/-- `_refresh_record_next_rdv` (src/main.py:1040-1045): recompute the cache
as the earliest upcoming appointment.  Called only from the cancel path
(`_cancel_rdv_by_id`), not from `rec_rdv_create`. -/
def refresh_record_next_rdv (s : RdvState) (now : Int) (rid : String) : RdvState :=
  if rid ∈ s.records then { s with next := upd1 s.next rid (earliestUpcoming s now rid) }
  else s

/-- Empty appointment state over a single record `r`. -/
def c3State0 : RdvState := { records := ["r"], next := fun _ => none, rdvs := [] }

/-- Schedule for time 100 (future of `now = 0`). -/
def c3State1 : RdvState := rec_rdv_create c3State0 0 "r" 100 "id1" 1

/-- Then schedule for the later time 200. -/
def c3State2 : RdvState := rec_rdv_create c3State1 0 "r" 200 "id2" 1

end Foches

/-- C3 (counterexample): with a non-sent future appointment at 100 already
stored, scheduling a later one at 200 sets the cached `next_rdv_iso` to
200, while the earliest non-sent future appointment is still 100 — the
cache does not stay at the earlier time as the claim states. -/
theorem c3_cache_not_earliest_counterexample :
    Foches.c3State2.next "r" = some 200
    ∧ Foches.earliestUpcoming Foches.c3State2 0 "r" = some 100
    ∧ Foches.c3State2.next "r" ≠ Foches.earliestUpcoming Foches.c3State2 0 "r" := by
  refine ⟨by decide, by decide, by decide⟩

/-- C3 (amended): after `rec_rdv_create` stores a new appointment for an
existing record, the record's cached `next_rdv_iso` equals the newly
created appointment's (possibly day-rolled) time, overwriting the cache
even when an earlier non-sent future appointment exists; the
recomputation to the earliest upcoming appointment happens only in the
cancellation path. -/
theorem c3_cache_is_new_appointment_amended (s : Foches.RdvState) (now : Int)
    (rid : String) (at0 : Int) (rdv_id : String) (chat : Int)
    (h : rid ∈ s.records) :
    (Foches.rec_rdv_create s now rid at0 rdv_id chat).next rid
      = some (if at0 ≤ now then at0 + 1440 else at0)
    ∧ (Foches.rec_rdv_create s now rid at0 rdv_id chat).rdvs
      = s.rdvs ++ [⟨rdv_id, rid, if at0 ≤ now then at0 + 1440 else at0,
                    (if at0 ≤ now then at0 + 1440 else at0) - 5, false, chat⟩] := by
  unfold Foches.rec_rdv_create
  rw [if_pos h]
  exact ⟨by simp [Foches.upd1], rfl⟩

/-- Witness for the amended C3 at the concrete second scheduling above. -/
theorem c3_cache_is_new_appointment_witness :
    Foches.c3State2.next "r" = some (if (200 : Int) ≤ 0 then 200 + 1440 else 200)
    ∧ Foches.c3State2.rdvs
      = Foches.c3State1.rdvs ++ [⟨"id2", "r", if (200 : Int) ≤ 0 then 200 + 1440 else 200,
                    (if (200 : Int) ≤ 0 then 200 + 1440 else 200) - 5, false, 1⟩] :=
  c3_cache_is_new_appointment_amended Foches.c3State1 0 "r" 200 "id2" 1 (by decide)

namespace Foches

/-- One appointment as the scheduler sees it: `datetime.fromisoformat` of
the stored `remind_iso`/`at_iso` is modelled up front, `none` standing for
a string that would raise (items written by `rec_rdv_create` always
parse). -/
structure SchedItem where
  rid : String
  at_iso : Option Int
  remind_iso : Option Int
  sent : Bool
deriving Repr, DecidableEq

/-- One pass of the scan loop of `rdv_scheduler` (src/main.py:1438-1469)
over one `(user, base)` item list, returning the updated items and the
per-position emission flags (`True` = a reminder send was attempted).
Mirrors the source: `sent` items are skipped; a `remind_iso` that fails to
parse is skipped by the inner `try/except: continue`; for a due item the
`at_iso` parse happens before the guarded send, so a failing `at_iso`
raises into the cycle's outer `try` and aborts the rest of the pass with
nothing else touched; otherwise the send is attempted (its outcome
swallowed by `try/except: pass`) and `sent = True` is set unconditionally.
`deliver` is the transport outcome; its value is discarded exactly as the
source discards the send exception. -/
def scanCycle (deliver : SchedItem → Bool) (now : Int) :
    List SchedItem → List SchedItem × List Bool
  | [] => ([], [])
  | it :: rest =>
    if it.sent then
      (it :: (scanCycle deliver now rest).1, false :: (scanCycle deliver now rest).2)
    else
      match it.remind_iso with
      | none => (it :: (scanCycle deliver now rest).1, false :: (scanCycle deliver now rest).2)
      | some rm =>
        if rm ≤ now then
          match it.at_iso with
          | none => (it :: rest, false :: rest.map fun _ => false)
          | some _ =>
            let _ := deliver it
            ({ it with sent := true } :: (scanCycle deliver now rest).1,
              true :: (scanCycle deliver now rest).2)
        else
          (it :: (scanCycle deliver now rest).1, false :: (scanCycle deliver now rest).2)

/-- Repeated scan passes at the given clock readings. -/
def runScans (deliver : SchedItem → Bool) (nows : List Int) (l : List SchedItem) :
    List SchedItem :=
  nows.foldl (fun acc now => (scanCycle deliver now acc).1) l

/-- How many times position `i` emits a reminder across the scan passes. -/
def emitCount (deliver : SchedItem → Bool) (nows : List Int) (l : List SchedItem)
    (i : Nat) : Nat :=
  match nows with
  | [] => 0
  | now :: rest =>
    (if ((scanCycle deliver now l).2.getD i false) then 1 else 0)
    + emitCount deliver rest (scanCycle deliver now l).1 i

end Foches

namespace Foches

theorem falses_getD (xs : List SchedItem) (n : Nat) :
    (xs.map fun _ => false).getD n false = false := by
  induction xs generalizing n with
  | nil => simp [List.getD]
  | cons x xs ih =>
    cases n with
    | zero => simp [List.getD]
    | succ m => simpa [List.getD] using ih m

theorem scanCycle_sent_stable (d : SchedItem → Bool) (now : Int) :
    ∀ (l : List SchedItem) (i : Nat) (it : SchedItem),
    l[i]? = some it → it.sent = true →
    (scanCycle d now l).1[i]? = some it ∧ (scanCycle d now l).2.getD i false = false := by
  intro l
  induction l with
  | nil => intro i it h _; simp at h
  | cons hd rest ih =>
    intro i it h hsent
    by_cases hs : hd.sent = true
    · simp only [scanCycle, if_pos hs]
      cases i with
      | zero =>
        simp only [List.getElem?_cons_zero, Option.some.injEq] at h
        subst h
        simp [List.getD]
      | succ n =>
        simp only [List.getElem?_cons_succ] at h
        simpa [List.getD] using ih n it h hsent
    · simp only [scanCycle, if_neg hs]
      cases hr : hd.remind_iso with
      | none =>
        dsimp only
        cases i with
        | zero =>
          simp only [List.getElem?_cons_zero, Option.some.injEq] at h
          subst h
          simp_all
        | succ n =>
          simp only [List.getElem?_cons_succ] at h
          simpa [List.getD] using ih n it h hsent
      | some rm =>
        dsimp only
        by_cases hle : rm ≤ now
        · rw [if_pos hle]
          cases hat : hd.at_iso with
          | none =>
            dsimp only
            cases i with
            | zero =>
              simp only [List.getElem?_cons_zero, Option.some.injEq] at h
              subst h
              simp_all
            | succ n =>
              simp only [List.getElem?_cons_succ] at h
              exact ⟨by simpa using h, by simpa [List.getD] using falses_getD rest n⟩
          | some t =>
            dsimp only
            cases i with
            | zero =>
              simp only [List.getElem?_cons_zero, Option.some.injEq] at h
              subst h
              simp_all
            | succ n =>
              simp only [List.getElem?_cons_succ] at h
              simpa [List.getD] using ih n it h hsent
        · rw [if_neg hle]
          cases i with
          | zero =>
            simp only [List.getElem?_cons_zero, Option.some.injEq] at h
            subst h
            simp [List.getD]
          | succ n =>
            simp only [List.getElem?_cons_succ] at h
            simpa [List.getD] using ih n it h hsent


theorem scanCycle_emit_sets_sent (d : SchedItem → Bool) (now : Int) :
    ∀ (l : List SchedItem) (i : Nat),
    (scanCycle d now l).2.getD i false = true →
    ∃ it, l[i]? = some it ∧ it.sent = false
      ∧ (scanCycle d now l).1[i]? = some { it with sent := true } := by
  intro l
  induction l with
  | nil => intro i h; simp [scanCycle, List.getD] at h
  | cons hd rest ih =>
    intro i h
    by_cases hs : hd.sent = true
    · simp only [scanCycle, if_pos hs] at h ⊢
      cases i with
      | zero => simp [List.getD] at h
      | succ n =>
        simp only [List.getD, List.getElem?_cons_succ] at h ⊢
        obtain ⟨it, h1, h2, h3⟩ := ih n (by simpa [List.getD] using h)
        exact ⟨it, h1, h2, h3⟩
    · simp only [scanCycle, if_neg hs] at h ⊢
      cases hr : hd.remind_iso with
      | none =>
        rw [hr] at h
        dsimp only at h ⊢
        cases i with
        | zero => simp [List.getD] at h
        | succ n =>
          simp only [List.getD, List.getElem?_cons_succ] at h ⊢
          obtain ⟨it, h1, h2, h3⟩ := ih n (by simpa [List.getD] using h)
          exact ⟨it, h1, h2, h3⟩
      | some rm =>
        rw [hr] at h
        dsimp only at h ⊢
        by_cases hle : rm ≤ now
        · rw [if_pos hle] at h ⊢
          cases hat : hd.at_iso with
          | none =>
            rw [hat] at h
            dsimp only at h ⊢
            cases i with
            | zero => simp [List.getD] at h
            | succ n =>
              exfalso
              simp only [List.getD, List.getElem?_cons_succ] at h
              have := falses_getD rest n
              simp [List.getD] at this
              simp_all
          | some t =>
            rw [hat] at h
            dsimp only at h ⊢
            cases i with
            | zero =>
              refine ⟨hd, by simp, by simpa using hs, ?_⟩
              simp [hat, hr]
            | succ n =>
              simp only [List.getD, List.getElem?_cons_succ] at h ⊢
              obtain ⟨it, h1, h2, h3⟩ := ih n (by simpa [List.getD] using h)
              exact ⟨it, h1, h2, h3⟩
        · rw [if_neg hle] at h ⊢
          cases i with
          | zero => simp [List.getD] at h
          | succ n =>
            simp only [List.getD, List.getElem?_cons_succ] at h ⊢
            obtain ⟨it, h1, h2, h3⟩ := ih n (by simpa [List.getD] using h)
            exact ⟨it, h1, h2, h3⟩


end Foches

namespace Foches

/-- An appointment already marked sent never emits again, in any number of
later scan passes. -/
theorem emitCount_zero_of_sent (d : SchedItem → Bool) :
    ∀ (nows : List Int) (l : List SchedItem) (i : Nat) (it : SchedItem),
    l[i]? = some it → it.sent = true → emitCount d nows l i = 0 := by
  intro nows
  induction nows with
  | nil => intro l i it _ _; rfl
  | cons now rest ih =>
    intro l i it h hs
    obtain ⟨h1, h2⟩ := scanCycle_sent_stable d now l i it h hs
    simp only [emitCount, h2]
    simpa using ih (scanCycle d now l).1 i it h1 hs

/-- Across any sequence of scan passes, each appointment position emits at
most once. -/
theorem emitCount_le_one (d : SchedItem → Bool) :
    ∀ (nows : List Int) (l : List SchedItem) (i : Nat),
    emitCount d nows l i ≤ 1 := by
  intro nows
  induction nows with
  | nil => intro l i; simp [emitCount]
  | cons now rest ih =>
    intro l i
    by_cases hf : (scanCycle d now l).2.getD i false = true
    · obtain ⟨it, h1, h2, h3⟩ := scanCycle_emit_sets_sent d now l i hf
      have hz := emitCount_zero_of_sent d rest (scanCycle d now l).1 i _ h3 rfl
      simp only [emitCount, hz, Nat.add_zero]
      split <;> omega
    · have hf' : (scanCycle d now l).2.getD i false = false := by
        cases hb : (scanCycle d now l).2.getD i false
        · rfl
        · exact absurd hb hf
      simp only [emitCount, hf', if_neg Bool.false_ne_true, Nat.zero_add]
      exact ih _ i

/-- In a pass where every stored `at_iso` parses, a pending appointment
whose reminder time has been reached emits exactly one reminder and is
marked sent. -/
theorem scanCycle_due_emits (d : SchedItem → Bool) (now : Int) :
    ∀ (l : List SchedItem) (i : Nat) (it : SchedItem),
    (∀ itj ∈ l, itj.at_iso ≠ none) →
    l[i]? = some it → it.sent = false →
    ∀ rm, it.remind_iso = some rm → rm ≤ now →
    (scanCycle d now l).2.getD i false = true
      ∧ (scanCycle d now l).1[i]? = some { it with sent := true } := by
  intro l
  induction l with
  | nil => intro i it _ h; simp at h
  | cons hd rest ih =>
    intro i it hwf h hsent rm hrm hle
    by_cases hs : hd.sent = true
    · simp only [scanCycle, if_pos hs]
      cases i with
      | zero =>
        simp only [List.getElem?_cons_zero, Option.some.injEq] at h
        subst h
        simp_all
      | succ n =>
        simp only [List.getElem?_cons_succ] at h
        have := ih n it (fun itj hj => hwf itj (List.mem_cons_of_mem hd hj)) h hsent rm hrm hle
        simpa [List.getD] using this
    · simp only [scanCycle, if_neg hs]
      cases hr : hd.remind_iso with
      | none =>
        dsimp only
        cases i with
        | zero =>
          simp only [List.getElem?_cons_zero, Option.some.injEq] at h
          subst h
          simp_all
        | succ n =>
          simp only [List.getElem?_cons_succ] at h
          have := ih n it (fun itj hj => hwf itj (List.mem_cons_of_mem hd hj)) h hsent rm hrm hle
          simpa [List.getD] using this
      | some rm0 =>
        dsimp only
        by_cases hle0 : rm0 ≤ now
        · rw [if_pos hle0]
          cases hat : hd.at_iso with
          | none => exact absurd hat (hwf hd (List.mem_cons_self hd rest))
          | some t =>
            dsimp only
            cases i with
            | zero =>
              simp only [List.getElem?_cons_zero, Option.some.injEq] at h
              subst h
              refine ⟨by simp [List.getD], ?_⟩
              simp [hat, hr]
            | succ n =>
              simp only [List.getElem?_cons_succ] at h
              have := ih n it (fun itj hj => hwf itj (List.mem_cons_of_mem hd hj)) h hsent rm hrm hle
              simpa [List.getD] using this
        · rw [if_neg hle0]
          cases i with
          | zero =>
            simp only [List.getElem?_cons_zero, Option.some.injEq] at h
            subst h
            rw [hrm] at hr
            cases hr
            exact absurd hle hle0
          | succ n =>
            simp only [List.getElem?_cons_succ] at h
            have := ih n it (fun itj hj => hwf itj (List.mem_cons_of_mem hd hj)) h hsent rm hrm hle
            simpa [List.getD] using this

/-- The scan pass neither marks nor skips anything based on the transport
outcome: the send result is discarded (`try/except: pass`), so the pass is
the same function for every delivery behaviour. -/
theorem scanCycle_deliver_irrelevant (d₁ d₂ : SchedItem → Bool) (now : Int) :
    ∀ l, scanCycle d₁ now l = scanCycle d₂ now l := by
  intro l
  induction l with
  | nil => rfl
  | cons hd rest ih => simp only [scanCycle, ih]

end Foches

/-- C2: the reminder scan is at-most-once per appointment.  (1) In a pass
whose stored timestamps all parse, every appointment with `sent = false`
and `remindAt ≤ now` emits one reminder and is set to `sent = true`;
(2) the pass's state and emissions are independent of the delivery
outcome, so a delivery failure still results in `sent = true`;
(3) across any sequence of scan passes each appointment emits at most one
reminder, and (4) an appointment with `sent = true` never emits again. -/
theorem c2_scheduler_at_most_once :
    (∀ (deliver : Foches.SchedItem → Bool) (now : Int) (l : List Foches.SchedItem)
        (i : Nat) (it : Foches.SchedItem),
      (∀ itj ∈ l, itj.at_iso ≠ none) → l[i]? = some it → it.sent = false →
      ∀ rm, it.remind_iso = some rm → rm ≤ now →
      (Foches.scanCycle deliver now l).2.getD i false = true
        ∧ (Foches.scanCycle deliver now l).1[i]? = some { it with sent := true })
    ∧ (∀ (d₁ d₂ : Foches.SchedItem → Bool) (now : Int) (l : List Foches.SchedItem),
        Foches.scanCycle d₁ now l = Foches.scanCycle d₂ now l)
    ∧ (∀ (deliver : Foches.SchedItem → Bool) (nows : List Int)
        (l : List Foches.SchedItem) (i : Nat),
        Foches.emitCount deliver nows l i ≤ 1)
    ∧ (∀ (deliver : Foches.SchedItem → Bool) (nows : List Int)
        (l : List Foches.SchedItem) (i : Nat) (it : Foches.SchedItem),
        l[i]? = some it → it.sent = true →
        Foches.emitCount deliver nows l i = 0) :=
  ⟨fun deliver now l i it hwf h hs rm hrm hle =>
      Foches.scanCycle_due_emits deliver now l i it hwf h hs rm hrm hle,
   fun d₁ d₂ now l => Foches.scanCycle_deliver_irrelevant d₁ d₂ now l,
   fun deliver nows l i => Foches.emitCount_le_one deliver nows l i,
   fun deliver nows l i it h hs => Foches.emitCount_zero_of_sent deliver nows l i it h hs⟩
